import Mathlib

/-!
Verification of the provider-resolution logic and the MMR search contract
documented by this repository.  The repository ships only documentation
notebooks; the functions they call (`init_chat_model`,
`max_marginal_relevance_search`) are part of the library but their code is
not in the documentation tree, so they are modelled here from the design
specification.
-/

namespace LangchainFork

/-- Returns the first element of `a :: l` attaining the maximal score `f`:
a later element beats the current best only when its score is strictly
larger, so ties are broken in favour of the earlier element. -/
def firstArgmaxAux {α β : Type} [LinearOrder β] (f : α → β) (a : α) : List α → α
  | [] => a
  | b :: l =>
    let c := firstArgmaxAux f b l
    if f a < f c then c else a

/-- Modelled from the spec: case-sensitive prefix test used by the
`ProviderRule` table ("a mapping from a name prefix pattern ... to a
provider identifier"). -/
def prefixMatches (p name : String) : Bool :=
  p.data.isPrefixOf name.data

/-- Modelled from the spec: the static, read-only `ProviderRule` table,
"populated at process start and never mutated", with the prefix patterns
the spec enumerates (`"gpt-3"`, `"gpt-4"`, `"claude-"`, `"gemini-"`) mapped
to the provider identifiers of the spec's examples. -/
def providerRules : List (String × String) :=
  [("gpt-3", "openai"),
   ("gpt-4", "openai"),
   ("claude-", "anthropic"),
   ("gemini-", "google_vertexai")]

/-- Modelled from the spec: the "closed enumeration of known providers"
from which an explicit `provider` string is drawn (glossary: `openai`,
`anthropic`, `google_vertexai`). -/
def knownProviders : List String :=
  ["openai", "anthropic", "google_vertexai"]

/-- Modelled from the spec: a `ModelSpec` is "an immutable value comprising
`model_name` (string) and optional `provider`". -/
structure ModelSpec where
  model_name : String
  provider : Option String
deriving DecidableEq

/-- Modelled from the spec: the resolver's single failure kind, "no
provider inferable and none supplied", surfaced as `UnresolvedProviderError`. -/
inductive ResolveError where
  | unresolvedProvider : ResolveError
deriving DecidableEq

/-- Modelled from the spec: a `ResolvedBinding` is "a provider identifier
plus the original keyword configuration ... to be forwarded verbatim".
The keyword configuration is opaque to the resolver, hence a type
parameter. -/
structure ResolvedBinding (α : Type) where
  provider : String
  config : α
deriving DecidableEq

instance {ε α : Type} [DecidableEq ε] [DecidableEq α] : DecidableEq (Except ε α) :=
  fun x y =>
    match x, y with
    | Except.ok a, Except.ok b =>
        if h : a = b then isTrue (by rw [h]) else isFalse (by simp [h])
    | Except.error e, Except.error f =>
        if h : e = f then isTrue (by rw [h]) else isFalse (by simp [h])
    | Except.ok _, Except.error _ => isFalse (by simp)
    | Except.error _, Except.ok _ => isFalse (by simp)

/-- The rules of the table whose prefix pattern matches the name, in
declaration order. -/
def matchingRules (table : List (String × String)) (name : String) :
    List (String × String) :=
  table.filter (fun r => prefixMatches r.1 name)

/-- Modelled from the spec: longest-prefix-match against a rule table,
"testing prefixes most-specific first ... ties broken by rule declaration
order (first match wins among equal-length prefixes)"; when no rule
matches, fails with `UnresolvedProviderError`. -/
def resolveProviderName (table : List (String × String)) (name : String) :
    Except ResolveError String :=
  match matchingRules table name with
  | [] => Except.error ResolveError.unresolvedProvider
  | r :: rs => Except.ok (firstArgmaxAux (fun q => q.1.length) r rs).2

/-- Modelled from the spec: "If `provider` is supplied, it is used as-is
(treated as authoritative, no validation against the name)"; otherwise the
provider is inferred from the static table. -/
def resolveProvider (spec : ModelSpec) : Except ResolveError String :=
  match spec.provider with
  | some p => Except.ok p
  | none => resolveProviderName providerRules spec.model_name

/-- Modelled from the spec: `init_chat_model` resolves the provider and
returns a `ResolvedBinding` carrying the keyword configuration unchanged. -/
def init_chat_model {α : Type} (spec : ModelSpec) (kwargs : α) :
    Except ResolveError (ResolvedBinding α) :=
  (resolveProvider spec).map (fun p => { provider := p, config := kwargs })

theorem firstArgmaxAux_spec {α β : Type} [LinearOrder β] (f : α → β) (a : α) (l : List α) :
    ∃ pre post,
      a :: l = pre ++ firstArgmaxAux f a l :: post ∧
      (∀ s ∈ a :: l, f s ≤ f (firstArgmaxAux f a l)) ∧
      ∀ s ∈ pre, f s < f (firstArgmaxAux f a l) := by
  induction l generalizing a with
  | nil =>
    refine ⟨[], [], by simp [firstArgmaxAux], ?_, by simp⟩
    intro s hs
    simp only [List.mem_singleton] at hs
    simp [hs, firstArgmaxAux]
  | cons b l ih =>
    obtain ⟨pre, post, hsplit, hmax, hpre⟩ := ih b
    simp only [firstArgmaxAux]
    by_cases hab : f a < f (firstArgmaxAux f b l)
    · refine ⟨a :: pre, post, ?_, ?_, ?_⟩
      · simp [if_pos hab, hsplit]
      · intro s hs
        rw [if_pos hab]
        rcases List.mem_cons.mp hs with rfl | hs
        · exact le_of_lt hab
        · exact hmax s hs
      · intro s hs
        rw [if_pos hab]
        rcases List.mem_cons.mp hs with rfl | hs
        · exact hab
        · exact hpre s hs
    · have hba : f (firstArgmaxAux f b l) ≤ f a := le_of_not_lt hab
      refine ⟨[], b :: l, by simp [if_neg hab], ?_, by simp⟩
      intro s hs
      rw [if_neg hab]
      rcases List.mem_cons.mp hs with rfl | hs
      · exact le_refl _
      · exact le_trans (hmax s (by simp [hs])) hba

theorem firstArgmaxAux_mem {α β : Type} [LinearOrder β] (f : α → β) (a : α) (l : List α) :
    firstArgmaxAux f a l ∈ a :: l := by
  obtain ⟨pre, post, hsplit, -, -⟩ := firstArgmaxAux_spec f a l
  rw [hsplit]
  simp

/-- C1: with `provider` absent, the resolver returns the provider of a
matching rule whose prefix is at least as long as every other matching
prefix, and every matching rule declared before it has a strictly shorter
prefix — longest prefix wins, ties broken by declaration order. -/
theorem resolver_longest_match_first (table : List (String × String)) (name : String)
    (hm : matchingRules table name ≠ []) :
    ∃ r pre post,
      matchingRules table name = pre ++ r :: post ∧
      resolveProviderName table name = Except.ok r.2 ∧
      (∀ s ∈ matchingRules table name, s.1.length ≤ r.1.length) ∧
      ∀ s ∈ pre, s.1.length < r.1.length := by
  cases hl : matchingRules table name with
  | nil => exact absurd hl hm
  | cons a l =>
    obtain ⟨pre, post, hsplit, hmax, hpre⟩ :=
      firstArgmaxAux_spec (fun q : String × String => q.1.length) a l
    refine ⟨firstArgmaxAux (fun q => q.1.length) a l, pre, post, hsplit, ?_, hmax, hpre⟩
    simp [resolveProviderName, hl]

theorem resolver_longest_match_first_witness :
    matchingRules [("gpt", "A"), ("gpt-4", "B")] "gpt-4o" ≠ [] ∧
    ∃ r pre post,
      matchingRules [("gpt", "A"), ("gpt-4", "B")] "gpt-4o" = pre ++ r :: post ∧
      resolveProviderName [("gpt", "A"), ("gpt-4", "B")] "gpt-4o" = Except.ok r.2 ∧
      (∀ s ∈ matchingRules [("gpt", "A"), ("gpt-4", "B")] "gpt-4o",
        s.1.length ≤ r.1.length) ∧
      ∀ s ∈ pre, s.1.length < r.1.length :=
  ⟨by decide, resolver_longest_match_first [("gpt", "A"), ("gpt-4", "B")] "gpt-4o" (by decide)⟩

/-- C2: with `provider` absent, resolution returns
`UnresolvedProviderError` exactly when no rule of the table matches the
name; and `unresolvedProvider` is the only failure value the error type
admits, so this is the resolver's only failure mode. -/
theorem resolver_unresolved_iff_no_match (name : String) :
    (resolveProvider ⟨name, none⟩ = Except.error ResolveError.unresolvedProvider ↔
      matchingRules providerRules name = []) ∧
    ∀ e : ResolveError, e = ResolveError.unresolvedProvider := by
  constructor
  · show resolveProviderName providerRules name = _ ↔ _
    cases hl : matchingRules providerRules name with
    | nil => simp [resolveProviderName, hl]
    | cons a l => simp [resolveProviderName, hl]
  · intro e
    cases e
    rfl

/-- C3: a supplied provider is authoritative: for every model name and
every keyword configuration, resolution succeeds with exactly that
provider, unchanged, with no inference from the name. -/
theorem explicit_provider_short_circuits {α : Type} (name p : String) (kw : α) :
    init_chat_model ⟨name, some p⟩ kw =
      Except.ok { provider := p, config := kw } := rfl

/-- C4: the spec's worked examples: `"gpt-4o"` resolves to `openai`,
`"claude-3-opus-20240229"` to `anthropic`, `"gemini-1.5-pro"` to
`google_vertexai`, and `"unknown-model-x"` fails. -/
theorem resolver_concrete_examples :
    resolveProvider ⟨"gpt-4o", none⟩ = Except.ok "openai" ∧
    resolveProvider ⟨"claude-3-opus-20240229", none⟩ = Except.ok "anthropic" ∧
    resolveProvider ⟨"gemini-1.5-pro", none⟩ = Except.ok "google_vertexai" ∧
    resolveProvider ⟨"unknown-model-x", none⟩ =
      Except.error ResolveError.unresolvedProvider := by decide

/-- C5: every rule of the table, applied to a name equal to its own
prefix with no explicit provider, yields the provider it maps to. -/
theorem rule_name_equal_to_its_own_pattern :
    ∀ r ∈ providerRules, resolveProvider ⟨r.1, none⟩ = Except.ok r.2 := by decide

theorem rule_name_equal_to_its_own_pattern_witness :
    ("gpt-3", "openai") ∈ providerRules ∧
    resolveProvider ⟨"gpt-3", none⟩ = Except.ok "openai" :=
  ⟨by decide, rule_name_equal_to_its_own_pattern ("gpt-3", "openai") (by decide)⟩

/-- C6: the keyword configuration is opaque to the resolver: the resolved
provider does not depend on it, and on success the binding forwards it
unchanged. -/
theorem kwargs_opaque_and_forwarded {α β : Type} (spec : ModelSpec) (kw : α) (kw' : β) :
    (init_chat_model spec kw).map (fun b => b.provider) =
      (init_chat_model spec kw').map (fun b => b.provider) ∧
    (init_chat_model spec kw).map (fun b => b.config) =
      (resolveProvider spec).map (fun _ => kw) := by
  cases h : resolveProvider spec <;> simp [init_chat_model, h, Except.map]

theorem providerRules_snd_nonempty : ∀ r ∈ providerRules, r.2 ≠ "" := by decide

theorem knownProviders_nonempty : ∀ p ∈ knownProviders, p ≠ "" := by decide

/-- C7: every successful resolution produces a binding with a non-empty
provider identifier, given the data-model constraint that an explicitly
supplied provider is drawn from the closed enumeration of known
providers. -/
theorem resolved_binding_provider_nonempty {α : Type} (spec : ModelSpec) (kw : α)
    (b : ResolvedBinding α)
    (hknown : ∀ p, spec.provider = some p → p ∈ knownProviders)
    (hok : init_chat_model spec kw = Except.ok b) :
    b.provider ≠ "" := by
  rw [init_chat_model] at hok
  cases hp : spec.provider with
  | some p =>
    have hres : resolveProvider spec = Except.ok p := by simp [resolveProvider, hp]
    rw [hres] at hok
    simp [Except.map] at hok
    rw [← hok]
    exact knownProviders_nonempty p (hknown p hp)
  | none =>
    have hres : resolveProvider spec = resolveProviderName providerRules spec.model_name := by
      simp [resolveProvider, hp]
    rw [hres] at hok
    cases hl : matchingRules providerRules spec.model_name with
    | nil =>
      simp only [resolveProviderName, hl] at hok
      simp [Except.map] at hok
    | cons a l =>
      simp only [resolveProviderName, hl] at hok
      simp [Except.map] at hok
      have hmem : firstArgmaxAux (fun q : String × String => q.1.length) a l ∈
          matchingRules providerRules spec.model_name := by
        rw [hl]
        exact firstArgmaxAux_mem _ a l
      have htab : firstArgmaxAux (fun q : String × String => q.1.length) a l ∈
          providerRules := (List.mem_filter.mp hmem).1
      rw [← hok]
      exact providerRules_snd_nonempty _ htab

theorem resolved_binding_provider_nonempty_witness :
    (∀ p, (⟨"gpt-4o", none⟩ : ModelSpec).provider = some p → p ∈ knownProviders) ∧
    init_chat_model (⟨"gpt-4o", none⟩ : ModelSpec) () =
      Except.ok { provider := "openai", config := () } ∧
    ({ provider := "openai", config := () } : ResolvedBinding Unit).provider ≠ "" :=
  ⟨fun _ h => Option.noConfusion h, by decide,
    resolved_binding_provider_nonempty (⟨"gpt-4o", none⟩ : ModelSpec) () _
      (fun _ h => Option.noConfusion h) (by decide)⟩

/-- Modelled from the spec: the resolver's only ambient state is the
static rule table, "populated at process start and never mutated". -/
structure ResolverState where
  rules : List (String × String)
deriving DecidableEq

/-- Modelled from the spec: the resolver as an explicit state-passing
function, reading the table from the state and returning the state with
the result; the spec requires it to have no side effects. -/
def resolveWithState {α : Type} (st : ResolverState) (spec : ModelSpec) (kwargs : α) :
    Except ResolveError (ResolvedBinding α) × ResolverState :=
  (match spec.provider with
    | some p => Except.ok { provider := p, config := kwargs }
    | none =>
        (resolveProviderName st.rules spec.model_name).map
          (fun p => { provider := p, config := kwargs }),
   st)

/-- C8: resolution is pure and deterministic: it leaves the rule-table
state unchanged, a repeated call on the resulting state returns the same
output, and the state-passing resolver agrees with the pure function over
the static table. -/
theorem resolver_pure_deterministic {α : Type} (st : ResolverState) (spec : ModelSpec)
    (kw : α) :
    (resolveWithState st spec kw).2 = st ∧
    (resolveWithState (resolveWithState st spec kw).2 spec kw).1 =
      (resolveWithState st spec kw).1 ∧
    (resolveWithState ⟨providerRules⟩ spec kw).1 = init_chat_model spec kw := by
  refine ⟨rfl, rfl, ?_⟩
  obtain ⟨name, prov⟩ := spec
  cases prov <;> rfl

theorem isPrefixOf_comparable (a b n : List Char)
    (ha : a.isPrefixOf n = true) (hb : b.isPrefixOf n = true) :
    a.isPrefixOf b = true ∨ b.isPrefixOf a = true := by
  induction n generalizing a b with
  | nil =>
    cases a with
    | nil => left; simp
    | cons x as => simp [List.isPrefixOf] at ha
  | cons z ns ih =>
    cases a with
    | nil => left; simp
    | cons x as =>
      cases b with
      | nil => right; simp
      | cons y bs =>
        simp only [List.isPrefixOf, Bool.and_eq_true, beq_iff_eq] at ha hb
        obtain ⟨hxz, ha'⟩ := ha
        obtain ⟨hyz, hb'⟩ := hb
        subst hxz
        subst hyz
        rcases ih as bs ha' hb' with h | h
        · left
          simp [List.isPrefixOf, h]
        · right
          simp [List.isPrefixOf, h]

theorem isPrefixOf_false_of_incomparable (a b n : List Char)
    (ha : a.isPrefixOf n = true)
    (h1 : a.isPrefixOf b = false) (h2 : b.isPrefixOf a = false) :
    b.isPrefixOf n = false := by
  cases hbn : b.isPrefixOf n with
  | false => rfl
  | true =>
    rcases isPrefixOf_comparable a b n ha hbn with h | h
    · simp [h1] at h
    · simp [h2] at h

/-- C10: every model name that starts with `"gpt-3"` or with `"gpt-4"`,
not only a name equal to a table prefix, resolves to provider `openai`
when no explicit provider is supplied. -/
theorem gpt3_gpt4_names_resolve_openai (name : String)
    (h : prefixMatches "gpt-3" name = true ∨ prefixMatches "gpt-4" name = true) :
    resolveProvider ⟨name, none⟩ = Except.ok "openai" := by
  rcases h with h3 | h4
  · have h4 : prefixMatches "gpt-4" name = false :=
      isPrefixOf_false_of_incomparable _ _ _ h3 (by decide) (by decide)
    have hc : prefixMatches "claude-" name = false :=
      isPrefixOf_false_of_incomparable _ _ _ h3 (by decide) (by decide)
    have hg : prefixMatches "gemini-" name = false :=
      isPrefixOf_false_of_incomparable _ _ _ h3 (by decide) (by decide)
    have hm : matchingRules providerRules name = [("gpt-3", "openai")] := by
      simp [matchingRules, providerRules, List.filter_cons, h3, h4, hc, hg]
    show resolveProviderName providerRules name = _
    simp [resolveProviderName, hm, firstArgmaxAux]
  · have h3 : prefixMatches "gpt-3" name = false :=
      isPrefixOf_false_of_incomparable _ _ _ h4 (by decide) (by decide)
    have hc : prefixMatches "claude-" name = false :=
      isPrefixOf_false_of_incomparable _ _ _ h4 (by decide) (by decide)
    have hg : prefixMatches "gemini-" name = false :=
      isPrefixOf_false_of_incomparable _ _ _ h4 (by decide) (by decide)
    have hm : matchingRules providerRules name = [("gpt-4", "openai")] := by
      simp [matchingRules, providerRules, List.filter_cons, h3, h4, hc, hg]
    show resolveProviderName providerRules name = _
    simp [resolveProviderName, hm, firstArgmaxAux]

theorem gpt3_gpt4_names_resolve_openai_witness :
    (prefixMatches "gpt-3" "gpt-4o" = true ∨ prefixMatches "gpt-4" "gpt-4o" = true) ∧
    resolveProvider ⟨"gpt-4o", none⟩ = Except.ok "openai" :=
  ⟨Or.inr (by decide), gpt3_gpt4_names_resolve_openai "gpt-4o" (Or.inr (by decide))⟩

/-- Modelled from the spec: the greedy selection loop shared by the
candidate fetch and the MMR re-rank: at each round the highest-scoring
remaining candidate is taken (the score may depend on the results already
selected), until the requested count is reached or the candidates run
out. -/
def greedySelect {α : Type} [DecidableEq α] (score : List α → α → ℤ) :
    List α → List α → Nat → List α
  | _, _, 0 => []
  | selected, cands, k + 1 =>
    match cands with
    | [] => []
    | c :: cs =>
      let b := firstArgmaxAux (score selected) c cs
      b :: greedySelect score (b :: selected) ((c :: cs).erase b) k

/-- Modelled from the spec: the dense similarity search that produces the
"initial candidate fetch of size `fetch_k`": the top `n` documents of the
store by query similarity. -/
def fetchTop {α : Type} [DecidableEq α] (simQ : α → ℤ) (n : Nat) (store : List α) :
    List α :=
  greedySelect (fun _ d => simQ d) [] store n

/-- Modelled from the spec (glossary): the MMR objective "balancing
similarity to the query against diversity among selected results": query
similarity minus the greatest similarity to an already-selected result. -/
def mmrScore {α : Type} (simQ : α → ℤ) (simD : α → α → ℤ)
    (selected : List α) (d : α) : ℤ :=
  simQ d - (selected.map (fun s => simD d s)).foldr max 0

/-- Modelled from the spec: `max_marginal_relevance_search` first fetches
the top `fetch_k` candidates by query similarity, then re-ranks them with
the diversity-aware MMR objective, returning `k` results. -/
def max_marginal_relevance_search {α : Type} [DecidableEq α] (store : List α)
    (simQ : α → ℤ) (simD : α → α → ℤ) (k fetch_k : Nat) : List α :=
  greedySelect (mmrScore simQ simD) [] (fetchTop simQ fetch_k store) k

theorem greedySelect_length {α : Type} [DecidableEq α] (score : List α → α → ℤ)
    (selected cands : List α) (k : Nat) :
    (greedySelect score selected cands k).length = min k cands.length := by
  induction k generalizing selected cands with
  | zero => simp [greedySelect]
  | succ k ih =>
    cases cands with
    | nil => simp [greedySelect]
    | cons c cs =>
      have hb : firstArgmaxAux (score selected) c cs ∈ c :: cs :=
        firstArgmaxAux_mem _ c cs
      have hlen : ((c :: cs).erase (firstArgmaxAux (score selected) c cs)).length =
          cs.length := by
        rw [List.length_erase_of_mem hb]
        simp
      simp only [greedySelect, List.length_cons]
      rw [ih, hlen]
      omega

theorem greedySelect_subset {α : Type} [DecidableEq α] (score : List α → α → ℤ)
    (selected cands : List α) (k : Nat) :
    ∀ d ∈ greedySelect score selected cands k, d ∈ cands := by
  induction k generalizing selected cands with
  | zero => simp [greedySelect]
  | succ k ih =>
    cases cands with
    | nil => simp [greedySelect]
    | cons c cs =>
      intro d hd
      simp only [greedySelect, List.mem_cons] at hd
      rcases hd with rfl | hd
      · exact firstArgmaxAux_mem _ c cs
      · exact List.erase_subset _ _ (ih _ _ d hd)

/-- C9: `max_marginal_relevance_search` with parameters `k` and `fetch_k`
first fetches `fetch_k` candidates (when the store holds that many) and
then returns exactly `k` results, every one of them drawn from those
candidates, selected by the diversity-aware MMR re-ranking. -/
theorem mmr_fetches_then_selects {α : Type} [DecidableEq α] (store : List α)
    (simQ : α → ℤ) (simD : α → α → ℤ) (k fetch_k : Nat)
    (hk : k ≤ fetch_k) (hf : fetch_k ≤ store.length) :
    (fetchTop simQ fetch_k store).length = fetch_k ∧
    (max_marginal_relevance_search store simQ simD k fetch_k).length = k ∧
    ∀ d ∈ max_marginal_relevance_search store simQ simD k fetch_k,
      d ∈ fetchTop simQ fetch_k store := by
  have h1 : (fetchTop simQ fetch_k store).length = fetch_k := by
    rw [fetchTop, greedySelect_length]
    omega
  refine ⟨h1, ?_, ?_⟩
  · rw [max_marginal_relevance_search, greedySelect_length, h1]
    omega
  · intro d hd
    exact greedySelect_subset _ _ _ _ d hd

theorem mmr_fetches_then_selects_witness :
    (1 ≤ 2 ∧ 2 ≤ ([0, 1, 2] : List ℕ).length) ∧
    (fetchTop (fun d : ℕ => (d : ℤ)) 2 [0, 1, 2]).length = 2 ∧
    (max_marginal_relevance_search [0, 1, 2] (fun d : ℕ => (d : ℤ))
      (fun _ _ => 0) 1 2).length = 1 ∧
    ∀ d ∈ max_marginal_relevance_search [0, 1, 2] (fun d : ℕ => (d : ℤ))
      (fun _ _ => 0) 1 2,
      d ∈ fetchTop (fun d : ℕ => (d : ℤ)) 2 [0, 1, 2] :=
  ⟨⟨by decide, by decide⟩,
    mmr_fetches_then_selects [0, 1, 2] (fun d : ℕ => (d : ℤ)) (fun _ _ => 0) 1 2
      (by decide) (by decide)⟩

end LangchainFork
